import Mathlib

/-!
Verification of the ancestry-maintenance engine of `src/lib/tree.js`
(materialized ancestry path strategy for a document collection).

Strings are modelled as lists of characters (`Str`), documents as `Doc`
records carrying `_id`, `parent` and `ancestry`, and the collection as a
`List Doc`.  The external record store (spec section 6) is the sole
collaborator: its fallibility is modelled by optional injected errors in
the environment structures (`SaveEnv`, `RemoveEnv`); on success a bulk
update applies to every matched document, and the bounded stream rewriter
surfaces the first per-item error, which is all the claims observe.
Absent/undefined string fields are modelled as the empty string, matching
the JS truthiness tests (`if (!this.ancestry)`, `if (doc.ancestry)`).

The anchored regex `'^' + p + '[' + sep + ']'` built by the engine is
modelled as "`p ++ [sep]` is a prefix" and the unanchored regex
`id + '[' + sep + ']'` as "`id ++ [sep]` occurs as a substring",
faithful because identifiers contain neither the separator nor regex
metacharacters (spec invariant I3).
-/

namespace PathTree

/-- Character strings, modelled as lists of characters so that all the
string surgery of the engine (prefix tests, `substr`, `split`, first
occurrence `replace`) is computable by structural recursion. -/
abbrev Str := List Char

/-- JS `String.prototype.split` with a single-character separator:
`"a/b".split('/') = ["a","b"]`, `"".split('/') = [""]`. -/
def splitOnChar (sep : Char) : Str → List Str
  | [] => [[]]
  | c :: rest =>
    let r := splitOnChar sep rest
    if c = sep then [] :: r
    else
      match r with
      | [] => [[c]]
      | h :: t => (c :: h) :: t

/-- JS `s.replace(pat, '')` for a plain (non-regex) pattern: deletes the
first occurrence of `pat` in `s`, and is the identity when `pat` does not
occur. -/
def replaceFirst (s pat : Str) : Str :=
  match s with
  | [] => []
  | c :: rest =>
    if pat.isPrefixOf (c :: rest) then (c :: rest).drop pat.length
    else c :: replaceFirst rest pat

/-- Substring test: does `pat` occur (contiguously) anywhere in `s`?
This is the semantics of the unanchored regex `pat` over separator-free
identifier segments. -/
def hasSubstr (s pat : Str) : Bool :=
  match s with
  | [] => pat.isEmpty
  | c :: rest => pat.isPrefixOf (c :: rest) || hasSubstr rest pat

/-- A stored document: the augmented record of the data model, with the
tree fields added by `schema.add` in `tree.js` (`_id`, `parent`,
`ancestry`).  A root has `parent = none` and empty `ancestry`. -/
structure Doc where
  _id : Str
  parent : Option Str := none
  ancestry : Str := []
deriving Repr, DecidableEq

/-- The path of a node: `node.ancestry + sep + node._id` when the ancestry
is non-empty, else `node._id`.  This is the value `preSave` assigns as the
`ancestry` of a child of `node` (lines computing `self.ancestry` from the
fetched parent document). -/
def pathOf (sep : Char) (d : Doc) : Str :=
  if d.ancestry = [] then d._id else d.ancestry ++ [sep] ++ d._id

/-- The new `ancestry` computed for a child of the fetched parent document
`doc` in `preSave`: `doc.ancestry + sep + doc._id` when `doc.ancestry` is
truthy, else `doc._id`. -/
def childAncestryUnder (sep : Char) (doc : Doc) : Str :=
  if doc.ancestry ≠ [] then doc.ancestry ++ [sep] ++ doc._id else doc._id

/-- The virtual `level` property: `this.ancestry ?
this.ancestry.split(ancestrySeparator).length : 0`. -/
def virtualPropLevel (sep : Char) (ancestry : Str) : Nat :=
  if ancestry = [] then 0 else (splitOnChar sep ancestry).length

/-- The spec's descendant criterion, as worded in the claims: `d` is a
descendant of `n` when `d.ancestry` begins with `pathOf n` followed by the
separator.  Declared from the spec's words (not from the code) so that the
set the code actually touches can be compared against it. -/
def specDescendantMatch (sep : Char) (n d : Doc) : Bool :=
  (pathOf sep n ++ [sep]).isPrefixOf d.ancestry

/-- Outcome of a pre-save hook run: the hook either invokes its completion
callback with no error (`ok`, carrying the possibly-rewritten document and
the resulting collection), invokes it with an error (`err`), or throws a
JS exception inside a store callback so that the callback is never invoked
(`crash`). -/
inductive SaveOutcome where
  | ok (self : Doc) (docs : List Doc)
  | err (e : Str)
  | crash
deriving Repr, DecidableEq

/-- Store collaborator state for one `preSave` run: the collection plus
optional injected failures of the store primitives it uses, in the order
the hook issues them (`findOne` on the parent id, `find` on the
descendant regex, and the per-document `update`s driven through the
bounded stream rewriter, which surfaces its first error). -/
structure SaveEnv where
  docs : List Doc
  findOneErr : Option Str := none
  findErr : Option Str := none
  updateErr : Option Str := none
deriving Repr, DecidableEq

/-- The `schema.pre('save', ...)` middleware of `tree.js`.

`isNew`/`isParentChange` are the mongoose flags `this.isNew` /
`this.isModified('parent')`.  When either holds and a parent is set, the
hook fetches the parent document (`findOne`), recomputes `self.ancestry`
from it, and — on a parent change — rewrites every document whose
`ancestry` matches the anchored regex `'^' + previousPath + '[sep]'`
(with `previousPath` the OLD `self.ancestry`) to
`self.ancestry + oldAncestry.substr(previousPath.length)`.

Note the JS callback dereferences the fetched document without a null
check (`doc.ancestry`), so a missing parent is a thrown `TypeError`, not
an error passed to `next`: modelled as `crash`. -/
def preSave (sep : Char) (isNew isParentChange : Bool) (self : Doc)
    (env : SaveEnv) : SaveOutcome :=
  if isNew || isParentChange then
    match self.parent with
    | none => .ok self env.docs
    | some pid =>
      match env.findOneErr with
      | some e => .err e
      | none =>
        match env.docs.find? (fun d => d._id == pid) with
        | none => .crash
        | some doc =>
          let previousPath := self.ancestry
          let self' := { self with ancestry := childAncestryUnder sep doc }
          if isParentChange then
            match env.findErr with
            | some e => .err e
            | none =>
              match env.updateErr with
              | some e => .err e
              | none =>
                .ok self' (env.docs.map (fun d =>
                  if (previousPath ++ [sep]).isPrefixOf d.ancestry then
                    { d with ancestry :=
                        self'.ancestry ++ d.ancestry.drop previousPath.length }
                  else d))
          else .ok self' env.docs
  else .ok self env.docs

/-- The two removal policies selected by the `onDelete` option. -/
inductive OnDelete where
  | DELETE
  | REPARENT
deriving Repr, DecidableEq

/-- Outcome of a pre-remove hook run, as for `SaveOutcome`. -/
inductive RemoveOutcome where
  | ok (docs : List Doc)
  | err (e : Str)
  | crash
deriving Repr, DecidableEq

/-- Store collaborator state for one `preRemove` run under the `REPARENT`
policy: the collection plus optional injected failures of the store
primitives in the order issued — stage-1 `find` on `parent`, stage-1
`update`s (first error surfaced by the stream rewriter), stage-2 `find`
on the unanchored ancestry regex, stage-2 `update`s, and the single bulk
`remove` of the `DELETE` policy. -/
structure RemoveEnv where
  docs : List Doc
  find1Err : Option Str := none
  upd1Err : Option Str := none
  find2Err : Option Str := none
  upd2Err : Option Str := none
  removeErr : Option Str := none
deriving Repr, DecidableEq

/-- The `schema.pre('remove', ...)` middleware of `tree.js`.

A document with falsy (empty) `ancestry` returns immediately, whatever
the policy.  Under `DELETE` the hook issues one bulk
`remove({ancestry: {$regex: '^' + this.ancestry + '[sep]'}})`.  Under
`REPARENT` it first rewrites `parent` of every document with
`parent == this._id` to `this.parent`, then — note the stage-2 `find`
callback never checks its error argument, so a stage-2 find failure
dereferences an undefined cursor (`crash`) — rewrites every document
whose `ancestry` matches the UNANCHORED regex `this._id + '[sep]'` by
deleting the first occurrence of that substring. -/
def preRemove (sep : Char) (onDelete : OnDelete) (self : Doc)
    (env : RemoveEnv) : RemoveOutcome :=
  if self.ancestry = [] then .ok env.docs
  else
    match onDelete with
    | .DELETE =>
      match env.removeErr with
      | some e => .err e
      | none =>
        .ok (env.docs.filter (fun d =>
          !((self.ancestry ++ [sep]).isPrefixOf d.ancestry)))
    | .REPARENT =>
      let newParent := self.parent
      let previousParent := self._id
      match env.find1Err with
      | some e => .err e
      | none =>
        match env.upd1Err with
        | some e => .err e
        | none =>
          let docs1 := env.docs.map (fun d =>
            if d.parent == some previousParent then { d with parent := newParent }
            else d)
          match env.find2Err with
          | some _ => .crash
          | none =>
            match env.upd2Err with
            | some e => .err e
            | none =>
              .ok (docs1.map (fun d =>
                if hasSubstr d.ancestry (previousParent ++ [sep]) then
                  { d with ancestry :=
                      replaceFirst d.ancestry (previousParent ++ [sep]) }
                else d))

/-- The ordered id list `getAncestors` builds before querying by
`$in`: `var ids = []; if (this.ancestry) { ids =
this.ancestry.split(ancestrySeparator); ids.pop(); }`.  Note the `pop`:
the last split segment is discarded. -/
def getAncestorsIds (sep : Char) (self : Doc) : List Str :=
  if self.ancestry = [] then []
  else (splitOnChar sep self.ancestry).dropLast

/-- A filter clause value as stored under a field key of a mongo filter
object: the anchored starts-with regex the engine builds for `ancestry`,
the id equality it builds for `parent`, or an opaque caller-supplied
clause. -/
inductive Clause where
  | regexStartsWith (p : Str)
  | eqId (v : Str)
  | callerClause (n : Nat)
deriving Repr, DecidableEq

/-- A mongo filter object: an association list from field keys to clause
values (insertion-ordered, one value per key, as JS object properties). -/
abbrev Filters := List (String × Clause)

/-- JS property assignment `filters[k] = c`: overwrite the value at `k`
if present, otherwise add the property. -/
def setKey (fs : Filters) (k : String) (c : Clause) : Filters :=
  if fs.any (fun kv => kv.1 == k) then
    fs.map (fun kv => if kv.1 == k then (k, c) else kv)
  else fs ++ [(k, c)]

/-- Filter construction of `schema.methods.getChildren` (the plain-object
branch; the `$query`-wrapped branch performs the same assignment on the
nested object): `recursive` sets
`filters['ancestry'] = {$regex: '^' + this.ancestry + '[sep]'}`, else
`filters['parent'] = this._id`. -/
def getChildrenFilters (self : Doc) (filters : Filters) (recursive : Bool) :
    Filters :=
  if recursive then setKey filters "ancestry" (.regexStartsWith self.ancestry)
  else setKey filters "parent" (.eqId self._id)

/-- Semantics of the anchored regex `'^' + p + '[' + sep + ']'` applied to
an `ancestry` string: the string starts with `p` immediately followed by
the separator (identifiers contain neither the separator nor regex
metacharacters, spec I3). -/
def regexStartsWithMatches (sep : Char) (p : Str) (ancestry : Str) : Bool :=
  (p ++ [sep]).isPrefixOf ancestry

/-- A node of the nested result built by `getChildrenTree`: the fetched
document plus its `children` container.  The container is `none` when the
JS code never assigned the `children` property (which happens when
`allowEmptyChildren` is false), `some` once it holds an array. -/
inductive TNode where
  | node (doc : Doc) (children : Option (List TNode))

/-- The document carried by a tree node. -/
def TNode.doc : TNode → Doc
  | .node d _ => d

/-- The children container of a tree node. -/
def TNode.children : TNode → Option (List TNode)
  | .node _ c => c

/-- The inner `createChildren(arr, node, level)` of `getChildrenTree`.

If `level` equals `minLevel` the node is appended to `arr` as a new
top-level entry (given an empty children container when
`allowEmptyChildren`).  Otherwise the code descends into the LAST entry
of `arr` (`arr[arr.length - 1]`), recursing into its children container
with `level - 1`; if there is no last entry the node is silently dropped
(`return []`, the array untouched); if the last entry has no children
container the JS dereference of `undefined` throws (`Except.error`). -/
def createChildren (minLevel : Int) (allowEmptyChildren : Bool)
    (arr : List TNode) (nd : Doc) (level : Int) : Except Unit (List TNode) :=
  if level = minLevel then
    .ok (arr ++ [.node nd (if allowEmptyChildren then some [] else none)])
  else
    match arr with
    | [] => .ok []
    | a :: rest =>
      match h2 : (a :: rest).getLast (List.cons_ne_nil a rest) with
      | .node _ none => .error ()
      | .node mdoc (some cs) =>
        match createChildren minLevel allowEmptyChildren cs nd (level - 1) with
        | .error e => .error e
        | .ok cs2 => .ok ((a :: rest).dropLast ++ [.node mdoc (some cs2)])
termination_by sizeOf arr
decreasing_by
  have hmem : (a :: rest).getLast (List.cons_ne_nil a rest) ∈ a :: rest :=
    List.getLast_mem (List.cons_ne_nil a rest)
  have hlt : sizeOf ((a :: rest).getLast (List.cons_ne_nil a rest)) < sizeOf (a :: rest) :=
    List.sizeOf_lt_of_mem hmem
  rw [h2] at hlt
  simp only [TNode.node.sizeOf_spec, Option.some.sizeOf_spec] at hlt
  omega

/-- Lexicographic order on character strings: the mandatory ascending
`options.sort.ancestry = 1` of the fetch issued by `getChildrenTree`
(mongo sorts the string field lexicographically). -/
def strLe : Str → Str → Bool
  | [], _ => true
  | _ :: _, [] => false
  | a :: as, b :: bs => if a = b then strLe as bs else decide (a < b)

/-- Insertion step of the ancestry sort. -/
def insertByAncestry (d : Doc) : List Doc → List Doc
  | [] => [d]
  | e :: rest =>
    if strLe d.ancestry e.ancestry then d :: e :: rest
    else e :: insertByAncestry d rest

/-- The ancestry-ascending sort applied by the store to the fetched
result set. -/
def sortByAncestry (ds : List Doc) : List Doc :=
  ds.foldr insertByAncestry []

/-- The filter `getChildrenTree` issues: with `recursive`, the anchored
ancestry regex under `root.ancestry` when a root document is supplied and
no constraint otherwise; without `recursive`, `parent == root._id` when a
root is supplied and `parent == null` otherwise. -/
def treeFilterMatches (sep : Char) (root : Option Doc) (recursive : Bool)
    (d : Doc) : Bool :=
  if recursive then
    match root with
    | some r => (r.ancestry ++ [sep]).isPrefixOf d.ancestry
    | none => true
  else
    match root with
    | some r => d.parent == some r._id
    | none => d.parent == none

/-- The recognized `args` of `getChildrenTree` with their defaults
(`minLevel` default 1, `recursive` and `allowEmptyChildren` default
true). -/
structure TreeArgs where
  minLevel : Int := 1
  recursive : Bool := true
  allowEmptyChildren : Bool := true
deriving Repr, DecidableEq

/-- The result-assembly loop of `getChildrenTree`: for each fetched
document in order, compute its level and place it with `createChildren`;
a thrown placement exception aborts the whole callback. -/
def buildTree (sep : Char) (minLevel : Int) (allowEmptyChildren : Bool) :
    List Doc → List TNode → Except Unit (List TNode)
  | [], acc => .ok acc
  | d :: rest, acc =>
    match createChildren minLevel allowEmptyChildren acc d
        ((virtualPropLevel sep d.ancestry : Nat) : Int) with
    | .error e => .error e
    | .ok acc2 => buildTree sep minLevel allowEmptyChildren rest acc2

/-- `schema.statics.getChildrenTree` end to end: build the filter, fetch
(the store applies the filter and the mandatory ascending ancestry sort),
compute `rootLevel` (1 without a root document, `getLevel(root.ancestry)
+ 1` with one), raise `minLevel` to `rootLevel` when smaller (after the
JS `args.minLevel || 1` defaulting, under which a falsy 0 becomes 1), and
run the assembly loop on the sorted results. -/
def getChildrenTree (sep : Char) (root : Option Doc) (args : TreeArgs)
    (docs : List Doc) : Except Unit (List TNode) :=
  let minLevel0 : Int := if args.minLevel = 0 then 1 else args.minLevel
  let results := sortByAncestry (docs.filter (treeFilterMatches sep root args.recursive))
  let rootLevel : Int :=
    match root with
    | some r => (virtualPropLevel sep r.ancestry : Nat) + 1
    | none => 1
  let minLevel := if minLevel0 < rootLevel then rootLevel else minLevel0
  buildTree sep minLevel args.allowEmptyChildren results []

/-! Concrete stores used to evaluate the hooks at specific inputs.
Identifiers are short separator-free strings; every store satisfies the
data-model invariant I1 (each non-root's `ancestry` is the path of its
parent). -/

/-- A root `p` with two children `n`, `m`; `d` is a child of `m`. -/
def c1P : Doc := ⟨['p'], none, []⟩

/-- Child `n` of `p`: the node removed in the C1 evaluation. -/
def c1N : Doc := ⟨['n'], some ['p'], ['p']⟩

/-- Child `m` of `p`: a sibling of `n`. -/
def c1M : Doc := ⟨['m'], some ['p'], ['p']⟩

/-- Child `d` of `m`: inside `m`'s subtree, outside `n`'s. -/
def c1D : Doc := ⟨['d'], some ['m'], ['p', '/', 'm']⟩

/-- A root `r` with a child `s` and grandchild `t`. -/
def c1R : Doc := ⟨['r'], none, []⟩

/-- Child `s` of the root `r`. -/
def c1S : Doc := ⟨['s'], some ['r'], ['r']⟩

/-- Grandchild `t` of the root `r`. -/
def c1T : Doc := ⟨['t'], some ['s'], ['r', '/', 's']⟩

/-- Root `p` that becomes the new parent in the C2 evaluation. -/
def c2P : Doc := ⟨['p'], none, []⟩

/-- Node `n`, previously a root (empty ancestry), whose `parent` field has
just been set to `p` and is about to be saved. -/
def c2N : Doc := ⟨['n'], some ['p'], []⟩

/-- `n` as it was stored before the parent change: a root. -/
def c2NOld : Doc := ⟨['n'], none, []⟩

/-- Child `c` of the ex-root `n`. -/
def c2C : Doc := ⟨['c'], some ['n'], ['n']⟩

/-- Grandchild `g` of the ex-root `n`. -/
def c2G : Doc := ⟨['g'], some ['c'], ['n', '/', 'c']⟩

/-- New root `x` used by the C2 witness store. -/
def c2X : Doc := ⟨['x'], none, []⟩

/-- Old root `a` of the C2 witness store. -/
def c2A : Doc := ⟨['a'], none, []⟩

/-- Node `n` under old root `a`, its `parent` just reassigned to `x`. -/
def c2NN : Doc := ⟨['n'], some ['x'], ['a']⟩

/-- Sibling `m` of `n` under `a`. -/
def c2M : Doc := ⟨['m'], some ['a'], ['a']⟩

/-- Child `k` of the sibling `m` (outside `n`'s subtree). -/
def c2K : Doc := ⟨['k'], some ['m'], ['a', '/', 'm']⟩

/-- Child `c` of `n` (inside `n`'s subtree). -/
def c2KID : Doc := ⟨['c'], some ['n'], ['a', '/', 'n']⟩

/-- Root of the C3 store, with the two-character id `ab`. -/
def c3R : Doc := ⟨['a', 'b'], none, []⟩

/-- Child `x` of the root `ab`. -/
def c3M : Doc := ⟨['x'], some ['a', 'b'], ['a', 'b']⟩

/-- Node `b` (child of `x`): the node removed in the C3 evaluation.  Its
id is a suffix of the ancestor id `ab`, so `b + '/'` occurs in its
descendants' ancestries earlier than `b`'s own segment. -/
def c3N : Doc := ⟨['b'], some ['x'], ['a', 'b', '/', 'x']⟩

/-- Child `q` of `b`. -/
def c3C : Doc := ⟨['q'], some ['b'], ['a', 'b', '/', 'x', '/', 'b']⟩

/-- Grandchild `g` of `b` (a deeper descendant). -/
def c3G : Doc := ⟨['g'], some ['q'], ['a', 'b', '/', 'x', '/', 'b', '/', 'q']⟩

/-- Root `a` of the three-node C4 store. -/
def c4A : Doc := ⟨['a'], none, []⟩

/-- Child `b` of `a`. -/
def c4B : Doc := ⟨['b'], some ['a'], ['a']⟩

/-- Grandchild `c` (child of `b`). -/
def c4C : Doc := ⟨['c'], some ['b'], ['a', '/', 'b']⟩

/-- Node at depth 2 whose parent is `c`, used by the C10 witness. -/
def c10D : Doc := ⟨['d'], some ['c'], ['a', '/', 'b', '/', 'c']⟩

/-- The node being saved in the C6 evaluation, referencing parent `p`. -/
def c6self : Doc := ⟨['n'], some ['p'], []⟩

/-- The only stored document of the C6 store: its id is not `p`. -/
def c6Q : Doc := ⟨['q'], none, []⟩

/-- The non-root node removed in the C8 evaluation. -/
def c8N : Doc := ⟨['n'], some ['p'], ['p']⟩

/-- The node whose children are listed in the C9 evaluation: id `n`,
ancestry `a`. -/
def c9self : Doc := ⟨['n'], some ['p'], ['a']⟩

/-! ### Helper lemmas -/

/-- When the pattern does not occur in `s`, the JS first-occurrence
replace is the identity. -/
theorem replaceFirst_of_hasSubstr_false (s pat : Str) (h : hasSubstr s pat = false) :
    replaceFirst s pat = s := by
  induction s with
  | nil => rfl
  | cons c rest ih =>
    unfold hasSubstr at h
    rw [Bool.or_eq_false_iff] at h
    unfold replaceFirst
    rw [h.1, ih h.2]
    simp

/-- JS `split` never yields an empty array. -/
theorem splitOnChar_ne_nil (sep : Char) (s : Str) : splitOnChar sep s ≠ [] := by
  cases s with
  | nil => simp [splitOnChar]
  | cons c rest =>
    simp only [splitOnChar]
    split
    · simp
    · split <;> simp

/-- The virtual `level` is zero exactly on the empty ancestry. -/
theorem virtualPropLevel_eq_zero_iff (sep : Char) (a : Str) :
    virtualPropLevel sep a = 0 ↔ a = [] := by
  unfold virtualPropLevel
  split
  · simp [*]
  · rename_i hne
    simp only [List.length_eq_zero]
    exact ⟨fun hsp => absurd hsp (splitOnChar_ne_nil sep a), fun hsp => absurd hsp hne⟩

/-- Unfolding of `createChildren` in the append-at-top case. -/
theorem createChildren_push (minLevel : Int) (ae : Bool) (arr : List TNode)
    (nd : Doc) (level : Int) (h : level = minLevel) :
    createChildren minLevel ae arr nd level
      = .ok (arr ++ [.node nd (if ae then some [] else none)]) := by
  unfold createChildren; simp [h]

/-- Unfolding of `createChildren` in the silent-drop case (descent from an
empty top-level array). -/
theorem createChildren_drop (minLevel : Int) (ae : Bool) (nd : Doc)
    (level : Int) (h : ¬ level = minLevel) :
    createChildren minLevel ae [] nd level = .ok [] := by
  unfold createChildren; simp [h]

/-- A successful `createChildren` extends the top-level document sequence
with the placed node exactly when its level equals `minLevel`, and leaves
the top-level documents unchanged otherwise (only a nested children list
changes). -/
theorem createChildren_topDocs (minLevel : Int) (ae : Bool) (arr : List TNode)
    (nd : Doc) (level : Int) (arr2 : List TNode)
    (h : createChildren minLevel ae arr nd level = .ok arr2) :
    arr2.map TNode.doc = arr.map TNode.doc
      ++ (if level = minLevel then [nd] else []) := by
  unfold createChildren at h
  by_cases hl : level = minLevel
  · rw [if_pos hl] at h
    injection h with h
    subst h
    simp [hl, TNode.doc]
  · rw [if_neg hl] at h
    rw [if_neg hl]
    split at h
    · injection h with h
      subst h
      simp
    · rename_i a rest
      split at h
      · exact absurd h (by simp)
      · rename_i mdoc cs hlast
        split at h
        · exact absurd h (by simp)
        · rename_i cs2 hrec
          injection h with h
          subst h
          have hfull : (a :: rest).dropLast ++ [(a :: rest).getLast (List.cons_ne_nil a rest)]
              = a :: rest := List.dropLast_append_getLast _
          calc ((a :: rest).dropLast ++ [TNode.node mdoc (some cs2)]).map TNode.doc
              = (a :: rest).dropLast.map TNode.doc ++ [mdoc] := by simp [TNode.doc]
            _ = (a :: rest).dropLast.map TNode.doc
                  ++ [((a :: rest).getLast (List.cons_ne_nil a rest)).doc] := by
                    rw [hlast]; rfl
            _ = ((a :: rest).dropLast ++ [(a :: rest).getLast (List.cons_ne_nil a rest)]).map TNode.doc := by
                    simp
            _ = (a :: rest).map TNode.doc ++ [] := by rw [hfull, List.append_nil]

/-- Every top-level entry produced by the assembly loop carries a document
whose level equals `minLevel`, provided the accumulator already satisfies
this. -/
theorem buildTree_topLevel (sep : Char) (minLevel : Int) (ae : Bool) :
    ∀ (results : List Doc) (acc ts : List TNode),
      buildTree sep minLevel ae results acc = .ok ts →
      (∀ t ∈ acc, ((virtualPropLevel sep t.doc.ancestry : Nat) : Int) = minLevel) →
      ∀ t ∈ ts, ((virtualPropLevel sep t.doc.ancestry : Nat) : Int) = minLevel := by
  intro results
  induction results with
  | nil =>
    intro acc ts h hacc
    unfold buildTree at h
    injection h with h
    subst h
    exact hacc
  | cons d rest ih =>
    intro acc ts h hacc
    unfold buildTree at h
    revert h
    split
    · intro h; exact absurd h (by simp)
    · rename_i acc2 hcc
      intro h
      refine ih acc2 ts h ?_
      intro t ht
      have hdocs := createChildren_topDocs _ _ _ _ _ _ hcc
      have hmem : t.doc ∈ acc2.map TNode.doc := List.mem_map_of_mem TNode.doc ht
      rw [hdocs] at hmem
      rcases List.mem_append.1 hmem with h1 | h2
      · obtain ⟨t0, ht0, hdoc⟩ := List.mem_map.1 h1
        rw [← hdoc]
        exact hacc t0 ht0
      · by_cases hc : ((virtualPropLevel sep d.ancestry : Nat) : Int) = minLevel
        · rw [if_pos hc] at h2
          have : t.doc = d := by simpa using h2
          rw [this]
          exact hc
        · rw [if_neg hc] at h2
          exact absurd h2 (by simp)

/-! ### Claim theorems -/

/-- C1.  Evaluation of the DELETE-policy pre-remove hook at the failing
inputs.  The claim says a node `D ≠ N` is deleted iff `D.ancestry` begins
with `pathOf N` followed by the separator, and that the cascade also runs
for a root `N`.  The code instead removes every document whose ancestry
begins with `N.ancestry` (not `pathOf N`) followed by the separator, and
skips the cascade entirely when `N.ancestry` is empty: here `d`
(child of `n`'s sibling `m`, not a descendant of `n`) is deleted, while
removing the root `r` leaves its descendant `t` (which does satisfy the
claim's descendant criterion) in the collection. -/
theorem c1_cascade_delete_eval :
    preRemove '/' .DELETE c1N ⟨[c1P, c1N, c1M, c1D], none, none, none, none, none⟩
      = .ok [c1P, c1N, c1M]
    ∧ specDescendantMatch '/' c1N c1D = false
    ∧ preRemove '/' .DELETE c1R ⟨[c1R, c1S, c1T], none, none, none, none, none⟩
      = .ok [c1R, c1S, c1T]
    ∧ specDescendantMatch '/' c1R c1T = true := by decide

/-- C5.  Evaluation of the id list `getAncestors` queries with.  The
claim says the `$in` set is the full split of `self.ancestry` (root-first,
including the direct parent).  The code pops the last split segment, so
for ancestry `a/b` the direct parent `b` is missing, and a depth-1 node
(ancestry `a`) queries with an empty id set. -/
theorem c5_get_ancestors_eval :
    getAncestorsIds '/' ⟨['c'], some ['b'], ['a', '/', 'b']⟩ = [['a']]
    ∧ splitOnChar '/' ['a', '/', 'b'] = [['a'], ['b']]
    ∧ getAncestorsIds '/' ⟨['b'], some ['a'], ['a']⟩ = []
    ∧ getAncestorsIds '/' ⟨['a'], none, []⟩ = [] := by decide

/-- C6.  Evaluation of the pre-save hook when the referenced parent id
does not resolve.  The claim says the hook aborts by passing the error to
its completion callback.  The code only handles the error argument of
`findOne`; when `findOne` succeeds with no document the callback
dereferences `null` (`doc.ancestry`) and throws, so the completion
callback is never invoked (`crash`), while a store error is indeed
propagated (`err`). -/
theorem c6_parent_not_found_eval :
    preSave '/' true false c6self ⟨[c6Q], none, none, none⟩ = .crash
    ∧ preSave '/' true false c6self ⟨[c6Q], some ['E'], none, none⟩ = .err ['E'] := by decide

/-- C7 counterexample.  The claim says every node with no parent ends a
save with empty ancestry and level 0, including a node whose parent was
just cleared.  Saving a node with `parent` cleared but old ancestry `a`
returns it unchanged: its ancestry is still `a` and its level 1. -/
theorem c7_counterexample :
    preSave '/' false true ⟨['n'], none, ['a']⟩ ⟨[], none, none, none⟩
      = .ok ⟨['n'], none, ['a']⟩ []
    ∧ (['a'] : Str) ≠ []
    ∧ virtualPropLevel '/' ['a'] = 1 := by decide

/-- C7 as amended.  When `parent` is absent the pre-save hook leaves the
document (in particular its ancestry) and the collection untouched, so a
node saved with empty ancestry stays a level-0 root, while a node whose
parent was cleared keeps its previous ancestry and level: the level is 0
exactly when the ancestry is empty. -/
theorem c7_root_ancestry (sep : Char) (isNew isParentChange : Bool)
    (self : Doc) (env : SaveEnv) (h : self.parent = none) :
    preSave sep isNew isParentChange self env = .ok self env.docs
    ∧ (virtualPropLevel sep self.ancestry = 0 ↔ self.ancestry = []) := by
  constructor
  · unfold preSave
    rw [h]
    cases isNew <;> cases isParentChange <;> simp
  · exact virtualPropLevel_eq_zero_iff sep self.ancestry

/-- C7 witness: the amended statement at a concrete root. -/
theorem c7_root_ancestry_witness :
    preSave '/' true false ⟨['r'], none, []⟩ ⟨[], none, none, none⟩
      = .ok ⟨['r'], none, []⟩ []
    ∧ (virtualPropLevel '/' ([] : Str) = 0 ↔ ([] : Str) = []) :=
  c7_root_ancestry '/' true false ⟨['r'], none, []⟩ ⟨[], none, none, none⟩ rfl

/-- C8.  Evaluation of the REPARENT removal pipeline's error handling.
The claim says every error of either stage, including a store error from
stage 2's descendant `find`, reaches the completion callback exactly
once.  The stage-2 `find` callback never checks its error argument, so
that failure dereferences an undefined cursor and the callback is never
invoked (`crash`); errors of the stage-1 `find`, the stage-1 updates
(with stage 2 then skipped, second and third conjuncts) and the stage-2
updates are propagated. -/
theorem c8_stage2_find_error_eval :
    preRemove '/' .REPARENT c8N ⟨[c8N], none, none, some ['E'], none, none⟩ = .crash
    ∧ preRemove '/' .REPARENT c8N ⟨[c8N], some ['F'], none, some ['E'], none, none⟩
      = .err ['F']
    ∧ preRemove '/' .REPARENT c8N ⟨[c8N], none, some ['G'], some ['E'], none, none⟩
      = .err ['G']
    ∧ preRemove '/' .REPARENT c8N ⟨[c8N], none, none, none, some ['H'], none⟩
      = .err ['H'] := by decide

/-- C9.  Evaluation of the `getChildren` filter construction.  The claim
says the recursive ancestry clause matches exactly the proper subtree of
`self` (ancestry beginning with `pathOf self` plus separator).  The
engine instead anchors the regex at `self.ancestry`: for `self` with
ancestry `a` and id `n`, the clause is `^a[/]`, which matches ancestry
`a/m` — a child of `self`'s sibling, not a descendant of `self`.  The
non-recursive branch and the merge behaviour (engine clause overwrites a
caller clause at the same key, other keys preserved) are as claimed. -/
theorem c9_children_filter_eval :
    getChildrenFilters c9self [] true = [("ancestry", .regexStartsWith ['a'])]
    ∧ regexStartsWithMatches '/' ['a'] ['a', '/', 'm'] = true
    ∧ specDescendantMatch '/' c9self ⟨['z'], some ['m'], ['a', '/', 'm']⟩ = false
    ∧ getChildrenFilters c9self [] false = [("parent", .eqId ['n'])]
    ∧ getChildrenFilters c9self [("ancestry", .callerClause 7)] true
      = [("ancestry", .regexStartsWith ['a'])]
    ∧ getChildrenFilters c9self [("foo", .callerClause 3)] true
      = [("foo", .callerClause 3), ("ancestry", .regexStartsWith ['a'])] := by decide

/-- C2 counterexample.  The claim says every former descendant `Di` of a
reparented node gets ancestry `this.ancestry +
oldAncestry.substring(previousPath.length)`, also when the node was
previously a root (`previousPath` empty).  Saving the ex-root `n` (now
under `p`) leaves its grandchild `g` — a descendant by the spec's own
criterion — completely untouched, because the rewrite regex
`^ + '' + [sep]` matches no stored ancestry; `g`'s ancestry is not the
claimed `p ++ n/c`. -/
theorem c2_counterexample :
    specDescendantMatch '/' c2NOld c2G = true
    ∧ preSave '/' false true c2N ⟨[c2P, c2N, c2C, c2G], none, none, none⟩
      = .ok ⟨['n'], some ['p'], ['p']⟩ [c2P, c2N, c2C, c2G]
    ∧ c2G.ancestry ≠ (['p'] : Str) ++ c2G.ancestry.drop ([] : Str).length := by decide

/-- C2 as amended.  On a parent change (with the parent found and the
store healthy) the save completes only after the bulk rewrite, the saved
node's ancestry becomes the child path under the fetched parent, and the
rewrite applies exactly to the documents whose ancestry begins with the
node's OLD ancestry (`previousPath`) followed by the separator — a set
that includes descendants of the node's siblings and, when the node was
previously a root (and no stored ancestry starts with the separator), is
empty, leaving every former descendant untouched. -/
theorem c2_reparent_rewrite (sep : Char) (isNew : Bool) (self : Doc)
    (env : SaveEnv) (pid : Str) (pdoc : Doc)
    (hp : self.parent = some pid)
    (h1 : env.findOneErr = none) (h2 : env.findErr = none)
    (h3 : env.updateErr = none)
    (hf : env.docs.find? (fun d => d._id == pid) = some pdoc) :
    ∃ docs', preSave sep isNew true self env
        = .ok { self with ancestry := childAncestryUnder sep pdoc } docs'
      ∧ (∀ D ∈ env.docs, (self.ancestry ++ [sep]).isPrefixOf D.ancestry = true →
          ({ D with ancestry := childAncestryUnder sep pdoc
              ++ D.ancestry.drop self.ancestry.length } : Doc) ∈ docs')
      ∧ (∀ D ∈ env.docs, (self.ancestry ++ [sep]).isPrefixOf D.ancestry = false →
          D ∈ docs')
      ∧ (self.ancestry = [] →
          (∀ D ∈ env.docs, ([sep] : Str).isPrefixOf D.ancestry = false) →
          docs' = env.docs) := by
  refine ⟨env.docs.map (fun d =>
      if (self.ancestry ++ [sep]).isPrefixOf d.ancestry then
        { d with ancestry := childAncestryUnder sep pdoc
            ++ d.ancestry.drop self.ancestry.length }
      else d), ?_, ?_, ?_, ?_⟩
  · simp only [preSave, hp, h1, h2, h3, Bool.or_true, if_true]
    simp [hf]
  · intro D hD hm
    exact List.mem_map.2 ⟨D, hD, by simp [hm]⟩
  · intro D hD hm
    exact List.mem_map.2 ⟨D, hD, by simp [hm]⟩
  · intro hanc hall
    have hid : ∀ d ∈ env.docs,
        (if (self.ancestry ++ [sep]).isPrefixOf d.ancestry then
          ({ d with ancestry := childAncestryUnder sep pdoc
              ++ d.ancestry.drop self.ancestry.length } : Doc)
        else d) = d := by
      intro d hd
      have hcond : List.isPrefixOf (self.ancestry ++ [sep]) d.ancestry = false := by
        rw [hanc, List.nil_append]
        exact hall d hd
      simp [hcond]
    rw [List.map_congr_left hid]
    simp

/-- C2 witness: the amended statement at a concrete reparent (node `n`
moved from root `a` to root `x`, with a sibling subtree present). -/
theorem c2_reparent_rewrite_witness :
    ∃ docs', preSave '/' false true c2NN
        ⟨[c2A, c2X, c2NN, c2M, c2K, c2KID], none, none, none⟩
        = .ok { c2NN with ancestry := childAncestryUnder '/' c2X } docs'
      ∧ (∀ D ∈ [c2A, c2X, c2NN, c2M, c2K, c2KID],
          (c2NN.ancestry ++ ['/']).isPrefixOf D.ancestry = true →
          ({ D with ancestry := childAncestryUnder '/' c2X
              ++ D.ancestry.drop c2NN.ancestry.length } : Doc) ∈ docs')
      ∧ (∀ D ∈ [c2A, c2X, c2NN, c2M, c2K, c2KID],
          (c2NN.ancestry ++ ['/']).isPrefixOf D.ancestry = false → D ∈ docs')
      ∧ (c2NN.ancestry = [] →
          (∀ D ∈ [c2A, c2X, c2NN, c2M, c2K, c2KID],
            (['/'] : Str).isPrefixOf D.ancestry = false) →
          docs' = [c2A, c2X, c2NN, c2M, c2K, c2KID]) :=
  c2_reparent_rewrite '/' false c2NN
    ⟨[c2A, c2X, c2NN, c2M, c2K, c2KID], none, none, none⟩ ['x'] c2X
    rfl rfl rfl rfl (by decide)

/-- C3 counterexample.  The claim says that after a REPARENT removal
every deeper descendant's ancestry no longer contains the removed id as a
path segment, order preserved.  Removing `b` (a deeper descendant being
`g` with ancestry `ab/x/b/q`) rewrites by deleting the FIRST substring
occurrence of `b/`, which here lies inside the ancestor id `ab`: `g` ends
with ancestry `ax/b/q`, which still contains `b` as a segment (and has
corrupted the remaining ancestor ids). -/
theorem c3_counterexample :
    specDescendantMatch '/' c3N c3G = true
    ∧ preRemove '/' .REPARENT c3N
        ⟨[c3R, c3M, c3N, c3C, c3G], none, none, none, none, none⟩
      = .ok [c3R, c3M,
          ⟨['b'], some ['x'], ['a', 'x']⟩,
          ⟨['q'], some ['x'], ['a', 'x', '/', 'b']⟩,
          ⟨['g'], some ['q'], ['a', 'x', '/', 'b', '/', 'q']⟩]
    ∧ (['b'] : Str) ∈ splitOnChar '/' ['a', 'x', '/', 'b', '/', 'q'] := by decide

/-- C3 as amended.  For a removed node with non-empty ancestry (a node
with empty ancestry skips the pipeline entirely), with a healthy store:
the removal completes, every former direct child ends with `parent` equal
to the removed node's former parent, and every document's ancestry is
rewritten by deleting the first substring occurrence of
`removedId + separator` (a no-op where the substring is absent) — which
removes the removed node's id as a segment with order preserved only when
that first occurrence is the id's own segment. -/
theorem c3_reparent_removal (sep : Char) (self : Doc) (ds : List Doc)
    (h : self.ancestry ≠ []) :
    ∃ ds', preRemove sep .REPARENT self ⟨ds, none, none, none, none, none⟩ = .ok ds'
      ∧ (∀ D ∈ ds, D.parent = some self._id →
          (⟨D._id, self.parent, replaceFirst D.ancestry (self._id ++ [sep])⟩ : Doc) ∈ ds')
      ∧ (∀ D ∈ ds, ∃ D' ∈ ds', D'._id = D._id
          ∧ D'.ancestry = replaceFirst D.ancestry (self._id ++ [sep])) := by
  refine ⟨(ds.map (fun d =>
      if d.parent == some self._id then { d with parent := self.parent } else d)).map
      (fun d =>
        if hasSubstr d.ancestry (self._id ++ [sep]) then
          { d with ancestry := replaceFirst d.ancestry (self._id ++ [sep]) }
        else d), ?_, ?_, ?_⟩
  · unfold preRemove
    rw [if_neg h]
  · intro D hD hpar
    refine List.mem_map.2
      ⟨(if D.parent == some self._id then { D with parent := self.parent } else D),
        List.mem_map_of_mem _ hD, ?_⟩
    have hone : (if D.parent == some self._id then { D with parent := self.parent } else D)
        = ({ D with parent := self.parent } : Doc) := by
      simp [hpar]
    rw [hone]
    by_cases hsub : hasSubstr D.ancestry (self._id ++ [sep]) = true
    · simp [hsub]
    · have hsub' : hasSubstr D.ancestry (self._id ++ [sep]) = false :=
        Bool.eq_false_iff.2 hsub
      rw [replaceFirst_of_hasSubstr_false _ _ hsub']
      simp [hsub']
  · intro D hD
    refine ⟨_, List.mem_map_of_mem _ (List.mem_map_of_mem _ hD), ?_, ?_⟩
    · by_cases hpar : (D.parent == some self._id) = true <;>
        by_cases hsub : hasSubstr D.ancestry (self._id ++ [sep]) = true <;>
          simp [hpar, hsub]
    · by_cases hpar : (D.parent == some self._id) = true <;>
        by_cases hsub : hasSubstr D.ancestry (self._id ++ [sep]) = true <;>
          simp only [hpar, hsub, if_true, if_false, Bool.false_eq_true, if_neg,
            ite_true, ite_false] <;>
          first
            | rfl
            | exact (replaceFirst_of_hasSubstr_false _ _ (Bool.eq_false_iff.2 hsub)).symm

/-- C3 witness: the amended statement at the concrete C3 store. -/
theorem c3_reparent_removal_witness :
    ∃ ds', preRemove '/' .REPARENT c3N
        ⟨[c3R, c3M, c3N, c3C, c3G], none, none, none, none, none⟩ = .ok ds'
      ∧ (∀ D ∈ [c3R, c3M, c3N, c3C, c3G], D.parent = some c3N._id →
          (⟨D._id, c3N.parent, replaceFirst D.ancestry (c3N._id ++ ['/'])⟩ : Doc) ∈ ds')
      ∧ (∀ D ∈ [c3R, c3M, c3N, c3C, c3G], ∃ D' ∈ ds', D'._id = D._id
          ∧ D'.ancestry = replaceFirst D.ancestry (c3N._id ++ ['/'])) :=
  c3_reparent_removal '/' c3N [c3R, c3M, c3N, c3C, c3G] (by decide)

/-- Evaluation of `getChildrenTree` with default arguments and no root
document on the three-node store `{a root, b child of a, c child of b}`:
the level-0 root `a` is below the default `minLevel` 1, finds no
top-level entry to descend into, and is silently dropped; `b` becomes the
top-level entry with `c` nested under it. -/
theorem tree_assembly_default_eval :
    getChildrenTree '/' none {} [c4A, c4B, c4C]
      = .ok [.node c4B (some [.node c4C (some [])])] := by
  have hs : sortByAncestry ([c4A, c4B, c4C].filter (treeFilterMatches '/' none true))
      = [c4A, c4B, c4C] := by decide
  have l0 : ((virtualPropLevel '/' c4A.ancestry : Nat) : Int) = 0 := by decide
  have l1 : ((virtualPropLevel '/' c4B.ancestry : Nat) : Int) = 1 := by decide
  have l2 : ((virtualPropLevel '/' c4C.ancestry : Nat) : Int) = 2 := by decide
  have e1 : createChildren 1 true [] c4A 0 = .ok [] :=
    createChildren_drop 1 true c4A 0 (by decide)
  have e2 : createChildren 1 true [] c4B 1 = .ok [.node c4B (some [])] := by
    rw [createChildren_push 1 true [] c4B 1 rfl]
    rfl
  have e3 : createChildren 1 true [.node c4B (some [])] c4C 2
      = .ok [.node c4B (some [.node c4C (some [])])] := by
    unfold createChildren
    simp [List.getLast, createChildren_push]
  unfold getChildrenTree
  dsimp only
  rw [hs]
  simp only [ite_self]
  simp only [buildTree, l0, l1, l2, e1, e2, e3]

/-- Evaluation of `getChildrenTree` with default arguments and root
document `b` (level 1) on the store `{c child of b, d child of c}`: the
effective `minLevel` is raised to 2, `c` is the top-level entry and `d`
nests under it. -/
theorem tree_assembly_rooted_eval :
    getChildrenTree '/' (some c4B) {} [c4C, c10D]
      = .ok [.node c4C (some [.node c10D (some [])])] := by
  have hs : sortByAncestry ([c4C, c10D].filter (treeFilterMatches '/' (some c4B) true))
      = [c4C, c10D] := by decide
  have l2 : ((virtualPropLevel '/' c4C.ancestry : Nat) : Int) = 2 := by decide
  have l3 : ((virtualPropLevel '/' c10D.ancestry : Nat) : Int) = 3 := by decide
  have f1 : createChildren 2 true [] c4C 2 = .ok [.node c4C (some [])] := by
    rw [createChildren_push 2 true [] c4C 2 rfl]
    rfl
  have f2 : createChildren 2 true [.node c4C (some [])] c10D 3
      = .ok [.node c4C (some [.node c10D (some [])])] := by
    unfold createChildren
    simp [List.getLast, createChildren_push]
  have lb : ((virtualPropLevel '/' c4B.ancestry : Nat) : Int) = 1 := by decide
  unfold getChildrenTree
  dsimp only
  rw [hs, lb]
  simp only [ite_self]
  norm_num
  simp only [buildTree, l2, l3, f1, f2]

/-- C4 counterexample.  The claim says the default `getChildrenTree` on
the store `{a root, b child of a, c child of b}` returns the
single-rooted forest `[{a, children: [{b, children: [{c, children:
[]}]}]}]`.  The code returns `[{b, children: [{c, children: []}]}]`
instead: the root `a` at level 0 is below the default `minLevel` 1 and is
dropped. -/
theorem c4_counterexample :
    getChildrenTree '/' none {} [c4A, c4B, c4C]
      ≠ .ok [.node c4A (some [.node c4B (some [.node c4C (some [])])])] := by
  rw [tree_assembly_default_eval]
  intro hcontra
  simp only [Except.ok.injEq, List.cons.injEq, TNode.node.injEq, c4A, c4B] at hcontra
  exact absurd hcontra.1.1 (by decide)

/-- C4 as amended.  With default options (no root, `minLevel` 1,
recursive, `allowEmptyChildren`), the three stored nodes `{a root,
b child of a, c child of b}` produce the forest
`[{b, children: [{c, children: []}]}]`: the root `a`, whose level 0 is
below the effective `minLevel` 1, is silently dropped, and its child `b`
becomes the single top-level entry. -/
theorem c4_tree_assembly :
    getChildrenTree '/' none {} [c4A, c4B, c4C]
      = .ok [.node c4B (some [.node c4C (some [])])] :=
  tree_assembly_default_eval

/-- C10.  When `getChildrenTree` is called with a root document, the
effective `minLevel` is raised to the root's level + 1 whenever the
caller's (defaulted) `minLevel` is smaller, so every top-level entry of a
successful result has level strictly above the root's own level: no node
at or above the root's level is emitted as a top-level entry. -/
theorem c10_min_level_raised (sep : Char) (r : Doc) (args : TreeArgs)
    (docs : List Doc) (ts : List TNode)
    (h : getChildrenTree sep (some r) args docs = .ok ts) :
    ∀ t ∈ ts, ((virtualPropLevel sep r.ancestry : Nat) : Int)
      < ((virtualPropLevel sep t.doc.ancestry : Nat) : Int) := by
  intro t ht
  unfold getChildrenTree at h
  dsimp only at h
  have hlev := buildTree_topLevel sep _ _ _ _ _ h
    (fun u hu => absurd hu (List.not_mem_nil u)) t ht
  rw [hlev]
  split
  · omega
  · omega

/-- C10 witness: the concrete rooted call, whose only top-level entry
(`c`, level 2) is strictly below the root `b` (level 1). -/
theorem c10_min_level_raised_witness :
    getChildrenTree '/' (some c4B) {} [c4C, c10D]
      = .ok [.node c4C (some [.node c10D (some [])])]
    ∧ ((virtualPropLevel '/' c4B.ancestry : Nat) : Int)
      < ((virtualPropLevel '/' (TNode.node c4C (some [.node c10D (some [])])).doc.ancestry : Nat) : Int) :=
  ⟨tree_assembly_rooted_eval,
    c10_min_level_raised '/' c4B {} [c4C, c10D] _ tree_assembly_rooted_eval
      _ (List.mem_cons_self _ _)⟩

end PathTree
